import Mathlib

/-!
Verification of the flicker log-shipping agent against its specification.

The development shallowly embeds the core of the agent:
  * `Flicker.pollOne` / `Flicker.pollTailer` — `LogTailer::poll` (src/tailer.rs)
  * `Flicker.LogFilter.should_ship`          — `LogFilter::should_ship` (src/filter.rs)
  * `Flicker.pipelineStep`                   — one iteration of the per-file
    pipeline loop body after a successful poll (src/main.rs)
  * `Flicker.build_bulk_body` and friends    — the Elasticsearch bulk framer
    (src/destinations/elasticsearch.rs)
  * `Flicker.format_syslog_message`          — the syslog framer
    (src/destinations/syslog.rs)
  * `Flicker.file_batch_output`              — the file destination writer
    (src/destinations/file.rs), together with a JSONL parser used to state
    the round-trip property.

File contents are modelled as lists of bytes (`List Nat`), newline = 10,
carriage return = 13.  Wall-clock instants are natural numbers; formatted
timestamps and the hostname lookup are parameters, since the clock and the
host are external to the code under verification.
-/

namespace Flicker

/-- A byte of file content. -/
abbrev Byte := Nat

/-- Snapshot of a file as seen by one `poll`: its byte content and its inode.
`metadata.len()` is `content.length`; `metadata.ino()` is `inode`. -/
structure FsFile where
  content : List Byte
  inode : Nat
deriving DecidableEq, Repr

/-- Tailer-internal tracking record for one path (struct `FileState` in
src/tailer.rs): the byte `position` of the next unread byte and the `inode`
recorded when the file was opened.  The open handle is not represented
separately: every read in the code happens either after an explicit
`seek(Start(position))` on a file whose identity matches `inode`, or not at
all (the fresh-open branch only seeks to the end). -/
structure FileState where
  position : Nat
  inode : Nat
deriving DecidableEq, Repr

/-- The sequence of chunks returned by the `read_line` loop on `l`: each call
to `read_line` reads bytes up to and including the next newline (byte 10), or
to end-of-file; the loop stops when a call reads zero bytes.  Thus `l` is cut
after every newline, and a trailing run with no newline — the unterminated
tail, which `read_line` also returns — forms a final chunk of its own. -/
def splitChunks : List Byte → List (List Byte)
  | [] => []
  | b :: rest =>
    if b = 10 then [10] :: splitChunks rest
    else
      match splitChunks rest with
      | [] => [[b]]
      | c :: cs => (b :: c) :: cs

/-- Strip rule applied to each chunk (lines 81–86 of src/tailer.rs): if the
chunk ends with `\n`, pop it; if it then ends with `\r`, pop that too.  A
chunk with no trailing newline is left untouched. -/
def stripChunk (c : List Byte) : List Byte :=
  if c.getLast? = some 10 then
    let c' := c.dropLast
    if c'.getLast? = some 13 then c'.dropLast else c'
  else c

/-- The lines emitted by the read loop over byte list `l`. -/
def emitLines (l : List Byte) : List (List Byte) :=
  (splitChunks l).map stripChunk

/-- Outcome of the fresh-open branch of `poll` (lines 94–114 of
src/tailer.rs): open the file (`openOk` models whether `File::open`
succeeds), seek to end-of-file, record position and inode, return no lines.
On open failure the `?` operator propagates an error and no state is
stored. -/
def freshOpen (openOk : Bool) (f : FsFile) :
    Option FileState × Except Unit (List (List Byte)) :=
  if openOk then
    (some { position := f.content.length, inode := f.inode }, .ok [])
  else
    (none, .error ())

/-- `LogTailer::poll` for a single path (src/tailer.rs lines 27–117),
restricted to one snapshot of the file system.  `fs = none` models a failed
stat; `st` is the stored state for the path.  Returns the new stored state
for the path and either the emitted lines or an error. -/
def pollOne (openOk : Bool) (fs : Option FsFile) (st : Option FileState) :
    Option FileState × Except Unit (List (List Byte)) :=
  match fs with
  | none => (st, .ok [])
  | some f =>
    match st with
    | some s =>
      -- truncation check (lines 57–61): size < position resets position to 0
      let s1 : FileState :=
        if f.content.length < s.position then { s with position := 0 } else s
      -- rotation check (lines 66–71): inode change discards state and re-polls,
      -- which under one snapshot lands in the fresh-open branch
      if f.inode ≠ s.inode then
        freshOpen openOk f
      else
        -- seek to stored position, read line-by-line to EOF (lines 74–93)
        (some { position := max s1.position f.content.length, inode := s.inode },
         .ok (emitLines (f.content.drop s1.position)))
    | none => freshOpen openOk f

/-- `LogTailer::poll` acting on the whole `files` map: only the polled path's
entry is read, removed or inserted. -/
def pollTailer (openOk : Bool) (fs : String → Option FsFile)
    (t : String → Option FileState) (p : String) :
    (String → Option FileState) × Except Unit (List (List Byte)) :=
  let r := pollOne openOk (fs p) (t p)
  (fun q => if q = p then r.1 else t q, r.2)

/-- A sequence of `poll`s of the same path against successive file-system
snapshots, starting from stored state `st`: threads the state through and
collects each poll's result. -/
def pollMany (openOk : Bool) (fsSeq : List (Option FsFile)) (st : Option FileState) :
    Option FileState × List (Except Unit (List (List Byte))) :=
  match fsSeq with
  | [] => (st, [])
  | f :: rest =>
    let r := pollOne openOk f st
    let r2 := pollMany openOk rest r.1
    (r2.1, r.2 :: r2.2)

/-- A compiled regular expression, represented by its matching behaviour
`is_match : String → Bool`.  The regex engine itself is external; a compiled
pattern is observationally a pure line predicate. -/
abbrev Pattern := String → Bool

/-- `LogFilter` (src/filter.rs): the compiled allow (`match_on`) and deny
(`exclude_on`) pattern lists. -/
structure LogFilter where
  match_patterns : List Pattern
  exclude_patterns : List Pattern

/-- `LogFilter::should_ship` (src/filter.rs lines 50–72): whitelist stage
then blacklist stage, each skipped when its list is empty. -/
def LogFilter.should_ship (f : LogFilter) (line : String) : Bool :=
  if !f.match_patterns.isEmpty && !(f.match_patterns.any fun r => r line) then
    false
  else if !f.exclude_patterns.isEmpty && (f.exclude_patterns.any fun r => r line) then
    false
  else
    true

/-- `LogFilter::is_passthrough` (src/filter.rs lines 75–77). -/
def LogFilter.is_passthrough (f : LogFilter) : Bool :=
  f.match_patterns.isEmpty && f.exclude_patterns.isEmpty

/-- Unanchored substring match: how the regex crate's `is_match` behaves on a
literal pattern such as `"ERROR"`.  Used to instantiate concrete filter
scenarios. -/
def substrMatch (pat : String) : Pattern :=
  fun line => decide (pat.data <:+: line.data)

/-- `LogEntry` (src/destinations/mod.rs): the unit of shipped data. -/
structure LogEntry where
  path : String
  line : String
deriving DecidableEq, Repr

/-- The pipeline task's mutable state (src/main.rs lines 62–63): the buffer
of pending entries and the instant of the last flush. -/
structure PipeState where
  buffer : List LogEntry
  lastFlush : Nat
deriving DecidableEq, Repr

/-- One iteration of the pipeline loop body after a successful poll
(src/main.rs lines 81–121): filter the polled lines into the buffer, then
flush when the buffer is full or the flush interval has elapsed with a
non-empty buffer.  `sendOk` is the result of `destination.send_batch`; the
code only logs it.  Returns the new state and the batch sent to the
destination, if a flush was attempted. -/
def pipelineStep (ship : String → Bool) (path : String)
    (bufferSize flushInterval : Nat) (now : Nat) (sendOk : Bool)
    (st : PipeState) (lines : List String) :
    PipeState × Option (List LogEntry) :=
  let buffer := st.buffer ++ (lines.filter ship).map fun l => { path := path, line := l }
  let bufferFull := decide (bufferSize ≤ buffer.length)
  let timeElapsed := decide (flushInterval ≤ now - st.lastFlush)
  if bufferFull || (timeElapsed && !buffer.isEmpty) then
    ({ buffer := [], lastFlush := now }, some buffer)
  else
    ({ buffer := buffer, lastFlush := st.lastFlush }, none)

/-- Lower-case hexadecimal digit, as emitted by serde_json's `\u00XX`
escapes. -/
def hexDigit (n : Nat) : Char :=
  if n < 10 then Char.ofNat (48 + n) else Char.ofNat (87 + n)

/-- serde_json's escaping of one character inside a JSON string: `"` and `\`
are backslash-escaped, the control characters BS HT LF FF CR get their short
escapes, all other control characters become `\u00XX`, and everything else
is emitted verbatim. -/
def jsonEscapeChar (c : Char) : String :=
  if c = '"' then "\\\""
  else if c = '\\' then "\\\\"
  else if c.toNat = 8 then "\\b"
  else if c.toNat = 9 then "\\t"
  else if c.toNat = 10 then "\\n"
  else if c.toNat = 12 then "\\f"
  else if c.toNat = 13 then "\\r"
  else if c.toNat < 32 then
    "\\u00" ++ String.mk [hexDigit (c.toNat / 16), hexDigit (c.toNat % 16)]
  else String.mk [c]

/-- serde_json's escaping of a whole string body. -/
def jsonEscape (s : String) : String :=
  String.join (s.data.map jsonEscapeChar)

/-- A serialized JSON string: the escaped body in double quotes. -/
def jsonStr (s : String) : String :=
  "\"" ++ jsonEscape s ++ "\""

/-- `str::trim_end_matches('/')`: drop every trailing slash. -/
def trimEndSlashes (s : String) : String :=
  String.mk (s.data.reverse.dropWhile (fun c => c = '/')).reverse

/-- serde_json serialization of `BulkIndexAction`
(src/destinations/elasticsearch.rs lines 25–33). -/
def bulkActionLine (index : String) : String :=
  "\x7b\"index\":\x7b\"_index\":" ++ jsonStr index ++ "\x7d\x7d"

/-- serde_json serialization of `ElasticsearchDocument`
(src/destinations/elasticsearch.rs lines 35–43): field order is the
declaration order `@timestamp`, `path`, `message`.  `now` is the RFC 3339
UTC timestamp string taken at serialization time. -/
def bulkDocLine (now : String) (e : LogEntry) : String :=
  "\x7b\"@timestamp\":" ++ jsonStr now ++ ",\"path\":" ++ jsonStr e.path ++
    ",\"message\":" ++ jsonStr e.line ++ "\x7d"

/-- `ElasticsearchDestination::build_bulk_body` (lines 58–82): the
`push_str`/`push` loop accumulating, per entry, the action line and the
document line, each followed by a newline. -/
def build_bulk_body (index now : String) (entries : List LogEntry) : String :=
  entries.foldl (fun body e =>
    body ++ bulkActionLine index ++ "\n" ++ bulkDocLine now e ++ "\n") ""

/-- An outgoing HTTP request, as far as this code determines it. -/
structure HttpRequest where
  url : String
  contentType : String
  body : String
deriving DecidableEq, Repr

/-- The request issued by `ElasticsearchDestination::send_batch` (lines
91–114) for a destination constructed by `ElasticsearchDestination::new`
(lines 46–52) from raw `url` and `index`: `new` stores the url with
trailing slashes trimmed; `send_batch` returns early on an empty batch and
otherwise POSTs the bulk body to `<url>/_bulk` as `application/x-ndjson`. -/
def es_send_batch_request (url index now : String) (entries : List LogEntry) :
    Option HttpRequest :=
  if entries.isEmpty then none
  else
    some { url := trimEndSlashes url ++ "/_bulk",
           contentType := "application/x-ndjson",
           body := build_bulk_body index now entries }

/-- `SyslogDestination::format_syslog_message` (src/destinations/syslog.rs
lines 51–64).  `ts` is `Local::now().format("%b %d %H:%M:%S")` rendered to a
string; `hostnameRes` is the result of the hostname lookup, `none` when the
hostname is unavailable (lines 54–57 fall back to `"unknown"`). -/
def format_syslog_message (ts : String) (hostnameRes : Option String)
    (e : LogEntry) : String :=
  let priority : Nat := 134
  let hostname := hostnameRes.getD "unknown"
  "<" ++ toString priority ++ ">" ++ ts ++ " " ++ hostname ++ " flicker: [" ++
    e.path ++ "] " ++ e.line

/-- serde_json serialization of a `LogEntry` (derive `Serialize` with field
order `path`, `line`), as written by the file destination. -/
def entryJson (e : LogEntry) : String :=
  "\x7b\"path\":" ++ jsonStr e.path ++ ",\"line\":" ++ jsonStr e.line ++ "\x7d"

/-- The bytes appended to the output file by `FileDestination::send_batch`
(src/destinations/file.rs lines 50–89): `writeln!` of each entry's JSON in
batch order.  An empty batch returns before any I/O. -/
def file_batch_output (entries : List LogEntry) : String :=
  entries.foldl (fun acc e => acc ++ entryJson e ++ "\n") ""

/-! ### A JSONL reader

The round-trip property of the file destination quantifies over "parsing the
appended output back as JSONL".  The following is a standard JSON string
reader (quotes, backslash escapes, `\uXXXX`) and a line-oriented reader of
`{"path":…,"line":…}` records; it is the formalization of the parsing side
of the round trip, not code of the repository. -/

/-- Value of a hexadecimal digit character, upper or lower case. -/
def parseHexDigit (c : Char) : Option Nat :=
  if 48 ≤ c.toNat ∧ c.toNat ≤ 57 then some (c.toNat - 48)
  else if 97 ≤ c.toNat ∧ c.toNat ≤ 102 then some (c.toNat - 87)
  else if 65 ≤ c.toNat ∧ c.toNat ≤ 70 then some (c.toNat - 55)
  else none

/-- The character denoted by a single-character JSON escape, `\u` excluded. -/
def unescapeChar (c : Char) : Option Char :=
  if c = '"' then some '"'
  else if c = '\\' then some '\\'
  else if c = '/' then some '/'
  else if c = 'b' then some (Char.ofNat 8)
  else if c = 't' then some (Char.ofNat 9)
  else if c = 'n' then some (Char.ofNat 10)
  else if c = 'f' then some (Char.ofNat 12)
  else if c = 'r' then some (Char.ofNat 13)
  else none

/-- Read the body of a JSON string up to and beyond the closing quote:
returns the decoded characters and the input remaining after the quote. -/
def parseStringBody : List Char → Option (List Char × List Char)
  | [] => none
  | c :: rest =>
    if c = '"' then some ([], rest)
    else if c = '\\' then
      match rest with
      | [] => none
      | e :: r =>
        if e = 'u' then
          match r with
          | h1 :: h2 :: h3 :: h4 :: r2 =>
            match parseHexDigit h1, parseHexDigit h2,
                parseHexDigit h3, parseHexDigit h4 with
            | some a, some b, some c3, some d =>
              (parseStringBody r2).map fun p =>
                (Char.ofNat (a * 4096 + b * 256 + c3 * 16 + d) :: p.1, p.2)
            | _, _, _, _ => none
          | _ => none
        else
          match unescapeChar e with
          | none => none
          | some ch =>
            (parseStringBody r).map fun p => (ch :: p.1, p.2)
    else
      (parseStringBody rest).map fun p => (c :: p.1, p.2)
termination_by l => l.length
decreasing_by all_goals simp_arith

/-- Read a complete JSON string token: an opening quote, then the body. -/
def parseJsonString (l : List Char) : Option (List Char × List Char) :=
  match l with
  | c :: rest => if c = '"' then parseStringBody rest else none
  | [] => none

/-- Consume an expected literal prefix. -/
def expectPrefix : List Char → List Char → Option (List Char)
  | [], l => some l
  | _ :: _, [] => none
  | p :: ps, c :: cs => if p = c then expectPrefix ps cs else none

/-- Read one JSONL record `{"path":<string>,"line":<string>}` followed by a
newline, yielding the decoded entry and the remaining input. -/
def parseEntryLine (l : List Char) : Option (LogEntry × List Char) :=
  match expectPrefix "\x7b\"path\":".data l with
  | none => none
  | some l1 =>
    match parseJsonString l1 with
    | none => none
    | some (p, l2) =>
      match expectPrefix ",\"line\":".data l2 with
      | none => none
      | some l3 =>
        match parseJsonString l3 with
        | none => none
        | some (s, l4) =>
          match expectPrefix "\x7d\n".data l4 with
          | none => none
          | some l5 => some ({ path := String.mk p, line := String.mk s }, l5)

/-- Fuelled JSONL reader: one record per iteration until the input is
exhausted. -/
def parseJsonlFuel (fuel : Nat) (l : List Char) : Option (List LogEntry) :=
  if l = [] then some []
  else
    match fuel with
    | 0 => none
    | fuel + 1 =>
      match parseEntryLine l with
      | none => none
      | some (e, rest) =>
        match parseJsonlFuel fuel rest with
        | none => none
        | some es => some (e :: es)

/-- Parse a whole string as JSONL `{"path":…,"line":…}` records. -/
def parseJsonl (s : String) : Option (List LogEntry) :=
  parseJsonlFuel s.data.length s.data

/-! ## Theorems -/

/-- A chunk list cut after a newline: the bytes before the first newline and
the newline itself form the first chunk. -/
theorem splitChunks_append_newline (l rest : List Byte) (h : (10 : Byte) ∉ l) :
    splitChunks (l ++ 10 :: rest) = (l ++ [10]) :: splitChunks rest := by
  induction l with
  | nil => simp [splitChunks]
  | cons b bs ih =>
    have hb : b ≠ 10 := fun hb => h (hb ▸ List.mem_cons_self b bs)
    have hbs : (10 : Byte) ∉ bs := fun hm => h (List.mem_cons_of_mem b hm)
    simp only [List.cons_append, splitChunks, if_neg hb, List.append_eq, ih hbs]

/-- Stripping a newline-terminated chunk whose body has no trailing carriage
return returns the body. -/
theorem stripChunk_complete (l : List Byte) (hcr : l.getLast? ≠ some 13) :
    stripChunk (l ++ [10]) = l := by
  unfold stripChunk
  rw [List.getLast?_concat, if_pos rfl, List.dropLast_concat, if_neg hcr]

/-- Reading a byte list made of complete newline-terminated lines emits
exactly those lines. -/
theorem emitLines_complete (ls : List (List Byte))
    (h : ∀ x ∈ ls, (10 : Byte) ∉ x ∧ x.getLast? ≠ some 13) :
    emitLines ((ls.map (· ++ [10])).flatten) = ls := by
  induction ls with
  | nil => rfl
  | cons x xs ih =>
    have hx := h x (List.mem_cons_self x xs)
    have hxs : ∀ y ∈ xs, (10 : Byte) ∉ y ∧ y.getLast? ≠ some 13 :=
      fun y hy => h y (List.mem_cons_of_mem x hy)
    have : (x ++ [10]) ++ (xs.map (· ++ [10])).flatten =
        x ++ 10 :: (xs.map (· ++ [10])).flatten := by
      simp
    rw [List.map_cons, List.flatten_cons, this]
    unfold emitLines
    rw [splitChunks_append_newline _ _ hx.1, List.map_cons,
      stripChunk_complete x hx.2]
    have := ih hxs
    unfold emitLines at this
    rw [this]

/-- The normal tracked read: state exists, identity unchanged, no truncation.
`poll` emits the stripped chunks of everything after the stored position and
stores the end-of-file position. -/
theorem pollOne_tracked (f : FsFile) (s : FileState) (hino : f.inode = s.inode)
    (hpos : s.position ≤ f.content.length) :
    pollOne true (some f) (some s) =
      (some { position := f.content.length, inode := s.inode },
       .ok (emitLines (f.content.drop s.position))) := by
  simp only [pollOne, hino, ne_eq, not_true_eq_false, if_false,
    if_neg (Nat.not_lt.mpr hpos)]
  simp [Nat.max_eq_right hpos]

/-- Along a chain of append-only growth, every later snapshot is at least as
long as the first. -/
theorem chain_length_mono (f0 : FsFile) (files : List FsFile)
    (hchain : List.Chain (fun a b => a.content <+: b.content) f0 files) :
    ∀ g ∈ files, f0.content.length ≤ g.content.length := by
  induction files generalizing f0 with
  | nil => intro g hg; cases hg
  | cons g gs ih =>
    rw [List.chain_cons] at hchain
    intro x hx
    rcases List.mem_cons.mp hx with hx | hx
    · exact hx ▸ hchain.1.length_le
    · exact le_trans hchain.1.length_le (ih g hchain.2 x hx)

/-- Polling repeatedly while the file grows append-only at fixed identity:
starting from state at offset `f0.content.length`, each poll emits the
stripped chunks of exactly the bytes its snapshot added beyond the previous
snapshot, and the stored position tracks the latest end-of-file. -/
theorem pollMany_chain (f0 : FsFile) (files : List FsFile)
    (hchain : List.Chain (fun a b => a.content <+: b.content) f0 files)
    (hinode : ∀ g ∈ files, g.inode = f0.inode) :
    pollMany true (files.map some)
        (some { position := f0.content.length, inode := f0.inode }) =
      (some { position := (files.getLastD f0).content.length, inode := f0.inode },
       ((f0 :: files).zip files).map fun ab =>
         .ok (emitLines (ab.2.content.drop ab.1.content.length))) := by
  induction files generalizing f0 with
  | nil => simp [pollMany]
  | cons g gs ih =>
    rw [List.chain_cons] at hchain
    have hgi : g.inode = f0.inode := hinode g (List.mem_cons_self g gs)
    have hstep : pollOne true (some g)
        (some { position := f0.content.length, inode := f0.inode }) =
        (some { position := g.content.length, inode := f0.inode },
         .ok (emitLines (g.content.drop f0.content.length))) :=
      pollOne_tracked g { position := f0.content.length, inode := f0.inode }
        (by simpa using hgi) hchain.1.length_le
    have hrest := ih g hchain.2
      (fun x hx => (hinode x (List.mem_cons_of_mem g hx)).trans hgi.symm)
    rw [hgi] at hrest
    simp only [List.map_cons, pollMany, hstep, hrest]
    cases gs with
    | nil => simp
    | cons y ys =>
      cases hys : (y :: ys).getLast? with
      | none => simp at hys
      | some a => simp [hys]

/-- C4: when no state is stored for a path and the file exists, `poll` opens
it, seeks to end-of-file, records the end offset and the file identity as
new state, and returns no lines.  Content present before this first poll is
never emitted later: as long as the file grows append-only at the same
identity, every subsequent poll emits only the stripped chunks of bytes at
offsets at or beyond the first poll's end-of-file. -/
theorem first_poll_starts_at_eof (f0 : FsFile) (files : List FsFile)
    (hchain : List.Chain (fun a b => a.content <+: b.content) f0 files)
    (hinode : ∀ g ∈ files, g.inode = f0.inode) :
    pollOne true (some f0) none =
      (some { position := f0.content.length, inode := f0.inode }, .ok []) ∧
    (pollMany true (files.map some)
        (some { position := f0.content.length, inode := f0.inode })).2 =
      ((f0 :: files).zip files).map (fun ab =>
        .ok (emitLines (ab.2.content.drop ab.1.content.length))) ∧
    ∀ ab ∈ (f0 :: files).zip files, f0.content.length ≤ ab.1.content.length := by
  refine ⟨rfl, ?_, ?_⟩
  · rw [pollMany_chain f0 files hchain hinode]
  · intro ab hab
    have h1 : ab.1 ∈ f0 :: files := (List.of_mem_zip hab).1
    rcases List.mem_cons.mp h1 with h | h
    · exact h ▸ le_refl _
    · exact chain_length_mono f0 files hchain ab.1 h

/-- C4 witness: a file holding `"Hi\n"` at identity 5, then two append-only
snapshots adding `"a\n"` and `"bc\n"`: the first poll returns nothing and
records position 3, and the two later polls emit `["a"]` and `["bc"]` —
nothing from before the first poll. -/
theorem first_poll_starts_at_eof_witness :
    pollOne true (some { content := [72, 105, 10], inode := 5 }) none =
      (some { position := 3, inode := 5 }, .ok []) ∧
    (pollMany true
        [some { content := [72, 105, 10, 97, 10], inode := 5 },
         some { content := [72, 105, 10, 97, 10, 98, 99, 10], inode := 5 }]
        (some { position := 3, inode := 5 })).2 =
      [.ok [[97]], .ok [[98, 99]]] := by
  have h := first_poll_starts_at_eof { content := [72, 105, 10], inode := 5 }
    [{ content := [72, 105, 10, 97, 10], inode := 5 },
     { content := [72, 105, 10, 97, 10, 98, 99, 10], inode := 5 }]
    (List.Chain.cons (by decide) (List.Chain.cons (by decide) List.Chain.nil))
    (by intro g hg; fin_cases hg <;> rfl)
  exact ⟨h.1, h.2.1.trans (by rfl)⟩

/-- C1: the claim that `poll` never emits bytes not followed by a newline and
never advances the stored position past the last newline is FALSE of the
code.  `read_line` returns the unterminated tail as a final record: polling a
tracked file of identity 1 at position 0 whose content is the three bytes
`"abc"` with no newline emits the partial line `"abc"` and stores position 3,
past the last newline.  (The code's own comment on the read loop claims the
opposite; spec §9 records this as a source bug.) -/
theorem partial_tail_is_emitted :
    pollOne true (some { content := [97, 98, 99], inode := 1 })
        (some { position := 0, inode := 1 }) =
      (some { position := 3, inode := 1 }, .ok [[97, 98, 99]]) := by
  rfl

/-- C5: if state exists and the current size is strictly below the stored
position (truncation), `poll` resets the position to 0 and reads from offset
0: it emits the stripped chunks of the whole current content and stores the
end-of-file position.  In particular, when the file was truncated to length
0 and `ls` complete newline-terminated lines were appended, the poll returns
exactly those lines. -/
theorem truncation_resets_and_rereads (f : FsFile) (s : FileState)
    (hino : f.inode = s.inode) (htrunc : f.content.length < s.position) :
    pollOne true (some f) (some s) =
      (some { position := f.content.length, inode := s.inode },
       .ok (emitLines f.content)) ∧
    ∀ ls : List (List Byte), f.content = (ls.map (· ++ [10])).flatten →
      (∀ x ∈ ls, (10 : Byte) ∉ x ∧ x.getLast? ≠ some 13) →
      emitLines f.content = ls := by
  constructor
  · simp only [pollOne, hino, ne_eq, not_true_eq_false, if_false,
      if_neg, if_pos htrunc]
    simp
  · intro ls hc hl
    rw [hc]
    exact emitLines_complete ls hl

/-- C5 witness: a file of identity 1 truncated below stored position 14 and
re-filled with the single complete line `"New Line 1\n"`; the poll returns
exactly `["New Line 1"]` and stores position 11. -/
theorem truncation_resets_and_rereads_witness :
    pollOne true
        (some { content := [78, 101, 119, 32, 76, 105, 110, 101, 32, 49, 10],
                inode := 1 })
        (some { position := 14, inode := 1 }) =
      (some { position := 11, inode := 1 },
       .ok (emitLines [78, 101, 119, 32, 76, 105, 110, 101, 32, 49, 10])) ∧
    emitLines [78, 101, 119, 32, 76, 105, 110, 101, 32, 49, 10] =
      [[78, 101, 119, 32, 76, 105, 110, 101, 32, 49]] := by
  refine ⟨(truncation_resets_and_rereads
    { content := [78, 101, 119, 32, 76, 105, 110, 101, 32, 49, 10], inode := 1 }
    { position := 14, inode := 1 } rfl (by decide)).1, by decide⟩

/-- C2: in an iteration of the pipeline loop after a successful poll, with
`fullBuf` the buffer after the filtered new lines are appended, a flush (a
`send_batch` of a copy of the buffer) is initiated exactly when
`bufferSize ≤ fullBuf.length` or (`0 < fullBuf.length` and
`flushInterval ≤ now − lastFlush`); after a flush attempt the buffer is empty
and `lastFlush = now`, and the outcome is independent of whether
`send_batch` succeeded (`sendOk`), the failed batch being dropped. -/
theorem flush_trigger_and_reset (ship : String → Bool) (path : String)
    (bufferSize flushInterval now : Nat) (sendOk : Bool) (st : PipeState)
    (lines : List String) :
    (pipelineStep ship path bufferSize flushInterval now sendOk st lines =
      if bufferSize ≤
            (st.buffer ++ (lines.filter ship).map fun l =>
              ({ path := path, line := l } : LogEntry)).length ∨
          (0 < (st.buffer ++ (lines.filter ship).map fun l =>
              ({ path := path, line := l } : LogEntry)).length ∧
            flushInterval ≤ now - st.lastFlush) then
        ({ buffer := [], lastFlush := now },
         some (st.buffer ++ (lines.filter ship).map fun l =>
           ({ path := path, line := l } : LogEntry)))
      else
        ({ buffer := st.buffer ++ (lines.filter ship).map fun l =>
             ({ path := path, line := l } : LogEntry),
           lastFlush := st.lastFlush }, none)) ∧
    pipelineStep ship path bufferSize flushInterval now sendOk st lines =
      pipelineStep ship path bufferSize flushInterval now true st lines := by
  refine ⟨?_, rfl⟩
  simp only [pipelineStep]
  refine if_congr ?_ rfl rfl
  simp only [Bool.or_eq_true, Bool.and_eq_true, Bool.not_eq_true',
    decide_eq_true_eq, List.isEmpty_eq_false, ← List.length_pos]
  constructor
  · rintro (h | ⟨h1, h2⟩)
    · exact Or.inl h
    · exact Or.inr ⟨h2, h1⟩
  · rintro (h | ⟨h1, h2⟩)
    · exact Or.inl h
    · exact Or.inr ⟨h2, h1⟩

/-- C3: `should_ship` returns true iff the line survives both stages: false
when the allow list is non-empty and no allow pattern matches, false when the
deny list is non-empty and some deny pattern matches, true otherwise; the
result is a pure function of the line and the two compiled pattern lists.
Instantiating the patterns with unanchored substring matching reproduces
scenario S3 (allow `ERROR`,`WARN`; deny `ignore`). -/
theorem should_ship_allow_deny :
    (∀ (m e : List Pattern) (line : String),
      LogFilter.should_ship ⟨m, e⟩ line = true ↔
        ((m = [] ∨ (m.any fun r => r line) = true) ∧
         (e = [] ∨ (e.any fun r => r line) = false))) ∧
    (LogFilter.should_ship
        ⟨[substrMatch "ERROR", substrMatch "WARN"], [substrMatch "ignore"]⟩
        "ERROR: bad" = true ∧
      LogFilter.should_ship
        ⟨[substrMatch "ERROR", substrMatch "WARN"], [substrMatch "ignore"]⟩
        "WARN: watch" = true ∧
      LogFilter.should_ship
        ⟨[substrMatch "ERROR", substrMatch "WARN"], [substrMatch "ignore"]⟩
        "ERROR: ignore this" = false ∧
      LogFilter.should_ship
        ⟨[substrMatch "ERROR", substrMatch "WARN"], [substrMatch "ignore"]⟩
        "WARN: please ignore" = false ∧
      LogFilter.should_ship
        ⟨[substrMatch "ERROR", substrMatch "WARN"], [substrMatch "ignore"]⟩
        "INFO: ok" = false) := by
  constructor
  · intro m e line
    cases hme : m.isEmpty <;> cases hA : (m.any fun r => r line) <;>
      cases hee : e.isEmpty <;> cases hB : (e.any fun r => r line) <;>
      simp_all [LogFilter.should_ship]
  · refine ⟨by decide, by decide, by decide, by decide, by decide⟩

/-- C6: when the stat fails (`fs = none`: file missing or permission denied)
`poll` returns an empty line list with no error and leaves whatever state is
stored for the path unchanged, whether or not the path was being tracked. -/
theorem stat_failure_returns_empty (openOk : Bool) (st : Option FileState) :
    pollOne openOk none st = (st, .ok []) := by
  rfl

/-- C8: every entry is framed as exactly
`<134>MMM DD HH:MM:SS <hostname> flicker: [<path>] <line>`, with the
priority fixed at 134, `ts` the local-time timestamp string, and the
hostname equal to the host's hostname when the lookup succeeds and the
literal `unknown` when it is unavailable. -/
theorem syslog_frame (ts h : String) (e : LogEntry) :
    format_syslog_message ts (some h) e =
      "<134>" ++ ts ++ " " ++ h ++ " flicker: [" ++ e.path ++ "] " ++ e.line ∧
    format_syslog_message ts none e =
      "<134>" ++ ts ++ " " ++ "unknown" ++ " flicker: [" ++ e.path ++ "] " ++
        e.line := by
  exact ⟨rfl, rfl⟩

/-- C10: polling path `p` leaves the stored state of every other path `q`
unchanged — in the stat-failure, truncation-reset, rotation-discard,
fresh-open and open-failure branches alike, since each touches only the map
entry of `p`. -/
theorem poll_frames_other_paths (openOk : Bool) (fs : String → Option FsFile)
    (t : String → Option FileState) (p q : String) (h : q ≠ p) :
    (pollTailer openOk fs t p).1 q = t q := by
  simp [pollTailer, if_neg h]

theorem string_join_cons (x : String) (l : List String) :
    String.join (x :: l) = x ++ String.join l := by
  apply String.ext
  simp [String.join_eq, String.data_append]

/-- The accumulator form of the bulk-body loop. -/
theorem build_bulk_body_foldl (index now : String) (entries : List LogEntry)
    (acc : String) :
    entries.foldl (fun body e =>
        body ++ bulkActionLine index ++ "\n" ++ bulkDocLine now e ++ "\n") acc =
      acc ++ String.join (entries.map fun e =>
        bulkActionLine index ++ "\n" ++ bulkDocLine now e ++ "\n") := by
  induction entries generalizing acc with
  | nil => simp [String.join]
  | cons e es ih =>
    rw [List.foldl_cons, ih, List.map_cons, string_join_cons]
    simp [String.append_assoc]

/-- The bulk body is the concatenation, per entry in order, of the action
line and the document line, each newline-terminated. -/
theorem build_bulk_body_eq_join (index now : String) (entries : List LogEntry) :
    build_bulk_body index now entries =
      String.join (entries.map fun e =>
        bulkActionLine index ++ "\n" ++ bulkDocLine now e ++ "\n") := by
  simpa [build_bulk_body] using build_bulk_body_foldl index now entries ""

theorem parseHexDigit_hexDigit : ∀ n < 16, parseHexDigit (hexDigit n) = some n := by
  decide

theorem hexDigit_ne_newline : ∀ n < 16, hexDigit n ≠ '\n' := by
  decide

/-- serde_json's escaping never emits a raw newline character. -/
theorem newline_not_mem_jsonEscapeChar (c : Char) :
    '\n' ∉ (jsonEscapeChar c).data := by
  intro hmem
  unfold jsonEscapeChar at hmem
  split_ifs at hmem with h1 h2 h3 h4 h5 h6 h7 h8
  all_goals try (revert hmem; decide)
  · have hd : c.toNat / 16 < 16 := by omega
    have hm : c.toNat % 16 < 16 := by omega
    simp only [String.data_append] at hmem
    rcases List.mem_append.mp hmem with hmem | hmem
    · revert hmem; decide
    · rcases List.mem_cons.mp hmem with hmem | hmem
      · exact hexDigit_ne_newline _ hd hmem.symm
      · rcases List.mem_cons.mp hmem with hmem | hmem
        · exact hexDigit_ne_newline _ hm hmem.symm
        · revert hmem
          simp
  · rcases List.mem_cons.mp hmem with hmem | hmem
    · exact h5 (by rw [← hmem]; rfl)
    · revert hmem
      simp

theorem newline_not_mem_jsonEscape (s : String) :
    '\n' ∉ (jsonEscape s).data := by
  unfold jsonEscape
  rw [String.join_eq]
  intro hmem
  rw [List.mem_flatten] at hmem
  obtain ⟨l, hl, hmem⟩ := hmem
  rw [List.mem_map] at hl
  obtain ⟨x, hx, rfl⟩ := hl
  rw [List.mem_map] at hx
  obtain ⟨c, _, rfl⟩ := hx
  exact newline_not_mem_jsonEscapeChar c hmem

theorem newline_not_mem_jsonStr (s : String) : '\n' ∉ (jsonStr s).data := by
  unfold jsonStr
  intro hmem
  simp only [String.data_append, List.mem_append] at hmem
  rcases hmem with (hmem | hmem) | hmem
  · revert hmem; decide
  · exact newline_not_mem_jsonEscape s hmem
  · revert hmem; decide

theorem newline_not_mem_bulkActionLine (index : String) :
    '\n' ∉ (bulkActionLine index).data := by
  unfold bulkActionLine
  intro hmem
  simp only [String.data_append, List.mem_append] at hmem
  rcases hmem with (hmem | hmem) | hmem
  · revert hmem; decide
  · exact newline_not_mem_jsonStr index hmem
  · revert hmem; decide

theorem newline_not_mem_bulkDocLine (now : String) (e : LogEntry) :
    '\n' ∉ (bulkDocLine now e).data := by
  unfold bulkDocLine
  intro hmem
  simp only [String.data_append, List.mem_append] at hmem
  rcases hmem with (((((hm | hm) | hm) | hm) | hm) | hm) | hm
  · revert hm; decide
  · exact newline_not_mem_jsonStr now hm
  · revert hm; decide
  · exact newline_not_mem_jsonStr e.path hm
  · revert hm; decide
  · exact newline_not_mem_jsonStr e.line hm
  · revert hm; decide

/-- Newline count of the bulk body: two newlines per entry. -/
theorem count_newline_build_bulk_body (index now : String)
    (entries : List LogEntry) :
    ((build_bulk_body index now entries).data.count '\n') =
      2 * entries.length := by
  induction entries with
  | nil => rfl
  | cons e es ih =>
    rw [build_bulk_body_eq_join] at ih ⊢
    rw [List.map_cons, string_join_cons, String.data_append]
    rw [List.count_append, ih]
    have hA : ((bulkActionLine index ++ "\n" ++ bulkDocLine now e ++ "\n").data.count '\n') = 2 := by
      simp only [String.data_append, List.count_append]
      rw [List.count_eq_zero.mpr (newline_not_mem_bulkActionLine index),
        List.count_eq_zero.mpr (newline_not_mem_bulkDocLine now e)]
      decide
    rw [hA]
    simp only [List.length_cons]
    omega

/-- C7: for a non-empty batch the Elasticsearch destination POSTs to
`<url-with-trailing-slashes-stripped>/_bulk` with content type
`application/x-ndjson`, and the body is, per entry in order, the action line
`{"index":{"_index":…}}` and the document line
`{"@timestamp":…,"path":…,"message":…}`, each line (the last included)
terminated by a newline; neither line contains an interior newline, so the
body has exactly `2 * n` lines. -/
theorem es_bulk_request_shape (url index now : String)
    (entries : List LogEntry) (h : entries ≠ []) :
    es_send_batch_request url index now entries =
      some { url := trimEndSlashes url ++ "/_bulk",
             contentType := "application/x-ndjson",
             body := String.join (entries.map fun e =>
               bulkActionLine index ++ "\n" ++ bulkDocLine now e ++ "\n") } ∧
    ('\n' ∉ (bulkActionLine index).data ∧
      ∀ e ∈ entries, '\n' ∉ (bulkDocLine now e).data) ∧
    ((build_bulk_body index now entries).data.count '\n') =
      2 * entries.length := by
  refine ⟨?_, ⟨newline_not_mem_bulkActionLine index,
    fun e _ => newline_not_mem_bulkDocLine now e⟩,
    count_newline_build_bulk_body index now entries⟩
  unfold es_send_batch_request
  rw [if_neg (by simpa [List.isEmpty_iff] using h), build_bulk_body_eq_join]

/-- C7 witness: scenario S6 — one entry `{path:"/a.log", line:"x"}`, index
`logs`, base url `http://es:9200/`: the request goes to
`http://es:9200/_bulk` as NDJSON with the expected two-line body. -/
theorem es_bulk_request_shape_witness :
    es_send_batch_request "http://es:9200/" "logs" "2025-12-03T14:23:45+00:00"
        [{ path := "/a.log", line := "x" }] =
      some { url := "http://es:9200/_bulk",
             contentType := "application/x-ndjson",
             body := "\x7b\"index\":\x7b\"_index\":\"logs\"\x7d\x7d\n\x7b\"@timestamp\":\"2025-12-03T14:23:45+00:00\",\"path\":\"/a.log\",\"message\":\"x\"\x7d\n" } := by
  have h := (es_bulk_request_shape "http://es:9200/" "logs"
    "2025-12-03T14:23:45+00:00" [{ path := "/a.log", line := "x" }]
    (by decide)).1
  rw [h]
  rfl

/-- C10 witness: polling path `"a"` (a rotation, for concreteness) leaves the
state stored for `"b"` untouched. -/
theorem poll_frames_other_paths_witness :
    (pollTailer true
        (fun _ => some { content := [120, 10], inode := 2 })
        (fun q => if q = "b" then some { position := 7, inode := 1 } else none)
        "a").1 "b" =
      some { position := 7, inode := 1 } := by
  have := poll_frames_other_paths true
    (fun _ => some { content := [120, 10], inode := 2 })
    (fun q => if q = "b" then some { position := 7, inode := 1 } else none)
    "a" "b" (by decide)
  rw [this]
  rfl

theorem jsonEscape_data (s : String) :
    (jsonEscape s).data = (s.data.map fun c => (jsonEscapeChar c).data).flatten := by
  unfold jsonEscape
  rw [String.join_eq]
  simp [List.map_map]
  rfl

theorem parseStringBody_quote (rest : List Char) :
    parseStringBody ('"' :: rest) = some ([], rest) := by
  rw [parseStringBody.eq_def]
  simp

theorem parseStringBody_plain (c : Char) (rest : List Char) (hq : ¬ c = '"')
    (hb : ¬ c = '\\') :
    parseStringBody (c :: rest) =
      (parseStringBody rest).map fun p => (c :: p.1, p.2) := by
  rw [parseStringBody.eq_def]
  simp only []
  rw [if_neg hq, if_neg hb]

theorem parseStringBody_esc (e : Char) (r : List Char) (he : ¬ e = 'u') :
    parseStringBody ('\\' :: e :: r) =
      match unescapeChar e with
      | none => none
      | some ch => (parseStringBody r).map fun p => (ch :: p.1, p.2) := by
  rw [parseStringBody.eq_def]
  simp only []
  rw [if_neg he]
  simp

theorem parseStringBody_u (a b c3 d : Char) (r2 : List Char) :
    parseStringBody ('\\' :: 'u' :: a :: b :: c3 :: d :: r2) =
      match parseHexDigit a, parseHexDigit b, parseHexDigit c3, parseHexDigit d with
      | some a, some b, some c3, some d =>
        (parseStringBody r2).map fun p =>
          (Char.ofNat (a * 4096 + b * 256 + c3 * 16 + d) :: p.1, p.2)
      | _, _, _, _ => none := by
  rw [parseStringBody.eq_def]
  simp

theorem data_escQuote : ("\\\"" : String).data = ['\\', '"'] := by decide

theorem data_escBackslash : ("\\\\" : String).data = ['\\', '\\'] := by decide

theorem data_escB : ("\\b" : String).data = ['\\', 'b'] := by decide

theorem data_escT : ("\\t" : String).data = ['\\', 't'] := by decide

theorem data_escN : ("\\n" : String).data = ['\\', 'n'] := by decide

theorem data_escF : ("\\f" : String).data = ['\\', 'f'] := by decide

theorem data_escR : ("\\r" : String).data = ['\\', 'r'] := by decide

theorem data_escU : ("\\u00" : String).data = ['\\', 'u', '0', '0'] := by decide

theorem data_mk (l : List Char) : (String.mk l).data = l := rfl

/-- Decoding inverts serde_json's escaping, one escaped character at a
time. -/
theorem parseStringBody_escape (l rest : List Char) :
    parseStringBody ((l.map fun c => (jsonEscapeChar c).data).flatten ++ '"' :: rest) =
      some (l, rest) := by
  induction l with
  | nil => simp [parseStringBody_quote]
  | cons c cs ih =>
    rw [List.map_cons, List.flatten_cons, List.append_assoc]
    set R := (cs.map fun c => (jsonEscapeChar c).data).flatten ++ '"' :: rest
      with hR
    unfold jsonEscapeChar
    split_ifs with h1 h2 h3 h4 h5 h6 h7 h8
    · simp only [data_escQuote, List.cons_append, List.nil_append]
      rw [parseStringBody_esc _ _ (by decide), ih]
      simp [unescapeChar, h1]
    · simp only [data_escBackslash, List.cons_append, List.nil_append]
      rw [parseStringBody_esc _ _ (by decide), ih]
      simp [unescapeChar, h2]
    · simp only [data_escB, List.cons_append, List.nil_append]
      rw [parseStringBody_esc _ _ (by decide), ih]
      have hc : Char.ofNat 8 = c := by rw [← h3, Char.ofNat_toNat]
      simp [unescapeChar]
      exact hc
    · simp only [data_escT, List.cons_append, List.nil_append]
      rw [parseStringBody_esc _ _ (by decide), ih]
      have hc : Char.ofNat 9 = c := by rw [← h4, Char.ofNat_toNat]
      simp [unescapeChar]
      exact hc
    · simp only [data_escN, List.cons_append, List.nil_append]
      rw [parseStringBody_esc _ _ (by decide), ih]
      have hc : Char.ofNat 10 = c := by rw [← h5, Char.ofNat_toNat]
      simp [unescapeChar]
      exact hc
    · simp only [data_escF, List.cons_append, List.nil_append]
      rw [parseStringBody_esc _ _ (by decide), ih]
      have hc : Char.ofNat 12 = c := by rw [← h6, Char.ofNat_toNat]
      simp [unescapeChar]
      exact hc
    · simp only [data_escR, List.cons_append, List.nil_append]
      rw [parseStringBody_esc _ _ (by decide), ih]
      have hc : Char.ofNat 13 = c := by rw [← h7, Char.ofNat_toNat]
      simp [unescapeChar]
      exact hc
    · have hd : c.toNat / 16 < 16 := by omega
      have hm : c.toNat % 16 < 16 := by omega
      simp only [String.data_append, data_escU, data_mk, List.cons_append,
        List.nil_append]
      rw [parseStringBody_u]
      rw [show parseHexDigit '0' = some 0 from by decide,
        parseHexDigit_hexDigit _ hd, parseHexDigit_hexDigit _ hm, ih]
      have hval : c.toNat / 16 * 16 + c.toNat % 16 = c.toNat := by omega
      simp [hval, Char.ofNat_toNat]
    · simp only [data_mk, List.cons_append, List.nil_append]
      rw [parseStringBody_plain c _ h1 h2, ih]
      rfl

theorem data_quoteChar : ("\"" : String).data = ['"'] := by decide

theorem data_objPath :
    ("\x7b\"path\":" : String).data = ['{', '"', 'p', 'a', 't', 'h', '"', ':'] := by
  decide

theorem data_objLine :
    (",\"line\":" : String).data = [',', '"', 'l', 'i', 'n', 'e', '"', ':'] := by
  decide

theorem data_closeBrace : ("\x7d" : String).data = ['}'] := by decide

theorem data_braceNewline : ("\x7d\n" : String).data = ['}', '\n'] := by decide

theorem expectPrefix_append (p l : List Char) :
    expectPrefix p (p ++ l) = some l := by
  induction p with
  | nil => rfl
  | cons c cs ih => simp [expectPrefix, ih]

/-- Reading back a serialized JSON string recovers the original characters. -/
theorem parseJsonString_jsonStr (s : String) (rest : List Char) :
    parseJsonString ((jsonStr s).data ++ rest) = some (s.data, rest) := by
  unfold jsonStr
  simp only [String.data_append, data_quoteChar, List.append_assoc,
    List.cons_append, List.nil_append, jsonEscape_data]
  simp [parseJsonString, parseStringBody_escape]

/-- Reading back one written JSONL record recovers the entry. -/
theorem parseEntryLine_entryJson (e : LogEntry) (rest : List Char) :
    parseEntryLine ((entryJson e).data ++ '\n' :: rest) = some (e, rest) := by
  unfold parseEntryLine entryJson
  simp only [String.data_append, List.append_assoc, data_objPath, data_objLine,
    data_closeBrace, data_braceNewline]
  rw [expectPrefix_append]
  simp only []
  rw [parseJsonString_jsonStr]
  simp only []
  rw [expectPrefix_append]
  simp only []
  rw [parseJsonString_jsonStr]
  simp only []
  rw [show (['}'] : List Char) ++ '\n' :: rest = ['}', '\n'] ++ rest from rfl]
  rw [expectPrefix_append]

/-- The accumulator form of the file destination's write loop. -/
theorem file_batch_output_foldl (entries : List LogEntry) (acc : String) :
    entries.foldl (fun acc e => acc ++ entryJson e ++ "\n") acc =
      acc ++ String.join (entries.map fun e => entryJson e ++ "\n") := by
  induction entries generalizing acc with
  | nil => simp [String.join]
  | cons e es ih =>
    rw [List.foldl_cons, ih, List.map_cons, string_join_cons]
    simp [String.append_assoc]

/-- The appended output is one JSON line per entry, in order. -/
theorem file_batch_output_eq_join (entries : List LogEntry) :
    file_batch_output entries =
      String.join (entries.map fun e => entryJson e ++ "\n") := by
  simpa [file_batch_output] using file_batch_output_foldl entries ""

theorem length_file_batch_output (entries : List LogEntry) :
    entries.length ≤ (file_batch_output entries).data.length := by
  induction entries with
  | nil => simp
  | cons e es ih =>
    rw [file_batch_output_eq_join] at ih ⊢
    rw [List.map_cons, string_join_cons, String.data_append,
      List.length_append]
    have h1 : 1 ≤ (entryJson e ++ "\n").data.length := by
      rw [String.data_append, List.length_append,
        show (("\n" : String)).data.length = 1 from by decide]
      omega
    simp only [List.length_cons]
    omega

/-- The fuelled JSONL reader inverts the writer, given enough fuel. -/
theorem parseJsonlFuel_output (entries : List LogEntry) :
    ∀ fuel, entries.length ≤ fuel →
      parseJsonlFuel fuel
          (String.join (entries.map fun e => entryJson e ++ "\n")).data =
        some entries := by
  induction entries with
  | nil =>
    intro fuel _
    rw [List.map_nil, String.join_eq]
    cases fuel <;> simp [parseJsonlFuel]
  | cons e es ih =>
    intro fuel hfuel
    rw [List.map_cons, string_join_cons, String.data_append, String.data_append]
    rw [show (("\n" : String)).data = ['\n'] from by decide, List.append_assoc]
    have hne : (entryJson e).data ++
        (['\n'] ++ (String.join (es.map fun e => entryJson e ++ "\n")).data) ≠
          [] := by
      simp
    cases fuel with
    | zero => simp at hfuel
    | succ f =>
      rw [parseJsonlFuel, if_neg hne]
      rw [show (['\n'] ++ (String.join (es.map fun e => entryJson e ++ "\n")).data :
            List Char) =
          '\n' :: (String.join (es.map fun e => entryJson e ++ "\n")).data
          from rfl]
      rw [parseEntryLine_entryJson]
      simp only []
      rw [ih f (Nat.le_of_succ_le_succ hfuel)]

/-- C9: the file destination appends, per batch, one line per entry in batch
order — the serde_json serialization `{"path":…,"line":…}` of the entry
followed by a newline — and parsing the appended output back as JSONL yields
exactly the same `(path, line)` pairs in emission order. -/
theorem file_dest_roundtrip (entries : List LogEntry) :
    file_batch_output entries =
      String.join (entries.map fun e => entryJson e ++ "\n") ∧
    parseJsonl (file_batch_output entries) = some entries := by
  refine ⟨file_batch_output_eq_join entries, ?_⟩
  unfold parseJsonl
  have hlen := length_file_batch_output entries
  rw [file_batch_output_eq_join] at hlen ⊢
  exact parseJsonlFuel_output entries _ hlen

end Flicker
